import Mathlib

/-
Verification of the resolution / toggle / impact engine of the
awesome-copilot-tui repository, a shallow embedding of
src/domain/model.rs, src/domain/state.rs and src/domain/toggle.rs.

Modelling conventions:
* Rust String ordering (byte-lexicographic over UTF-8, which agrees with
  code-point lexicographic order) is embedded as strLtChars / strLe over
  String.data, because the built-in String order does not reduce in the
  kernel.
* Rust Vec::sort_by (a stable sort) is embedded as List.insertionSort,
  which is also stable, with the same comparator; stable sorts agree on
  every input for a fixed total preorder.
* BTreeMap<String, bool> is embedded as a key-sorted association list
  (List (String × Bool)) with lookup mapGet, insertion mapInsert and
  removal mapRemove mirroring the BTreeMap operations.
* str::to_lowercase is embedded for the ASCII range (strToLower); the
  claims under study never depend on non-ASCII case mapping.
* HashSet / HashMap indices built by Catalog::finalize are embedded as
  functions recomputed from the catalog lists (contains, memberships,
  collection_by_id); finalize derives them purely from those lists.
* anyhow::Result is embedded as Except String; methods mutating
  DomainState in place return the new state explicitly.
-/

namespace CopilotTui

/-- Code-point comparison on characters, matching byte order of UTF-8. -/
def charLt (a b : Char) : Bool := a.toNat < b.toNat

/-- Lexicographic strict order on character lists (Rust byte order on str). -/
def strLtChars : List Char → List Char → Bool
  | [], [] => false
  | [], _ :: _ => true
  | _ :: _, [] => false
  | a :: as, b :: bs =>
    if charLt a b then true
    else if charLt b a then false
    else strLtChars as bs

/-- Strict order on strings, matching Rust Ord for String. -/
def strLt (a b : String) : Bool := strLtChars a.data b.data

/-- Non-strict order on strings, matching Rust Ord for String. -/
def strLe (a b : String) : Bool := !(strLt b a)

/-- ASCII lowercase of one character (models char::to_lowercase on ASCII). -/
def charToLower (c : Char) : Char :=
  if 65 ≤ c.toNat ∧ c.toNat ≤ 90 then Char.ofNat (c.toNat + 32) else c

/-- ASCII lowercase of a string (models str::to_lowercase on ASCII data). -/
def strToLower (s : String) : String := String.mk (s.data.map charToLower)

/-- The strLe order as a decidable relation for List.insertionSort. -/
def strLeR : String → String → Prop := fun a b => strLe a b = true

instance : DecidableRel strLeR := fun a b => instDecidableEqBool (strLe a b) true

/-- AssetKind from src/domain/model.rs. -/
inductive AssetKind where
  | Prompt
  | Instruction
  | ChatMode
  | Collection
deriving DecidableEq

/-- LocalStatus from src/io/sync.rs (carried by AssetView, always NA in the builders). -/
inductive LocalStatus where
  | Missing
  | Same
  | Diff
  | NA
deriving DecidableEq

/-- Prompt from src/domain/model.rs. -/
structure Prompt where
  path : String
  slug : String
  name : String
  description : String
  mode : String
  tags : List String
  sha256 : String
deriving DecidableEq

/-- Instruction from src/domain/model.rs. -/
structure Instruction where
  path : String
  slug : String
  name : String
  description : String
  apply_to : List String
  tags : List String
  sha256 : String
deriving DecidableEq

/-- ChatMode from src/domain/model.rs. -/
structure ChatMode where
  path : String
  slug : String
  name : String
  description : String
  tools : List String
  tags : List String
  sha256 : String
deriving DecidableEq

/-- CollectionItem from src/domain/model.rs. -/
structure CollectionItem where
  path : String
  kind : AssetKind
deriving DecidableEq

/-- Collection from src/domain/model.rs. -/
structure Collection where
  path : String
  id : String
  slug : String
  name : String
  description : String
  tags : List String
  items : List CollectionItem
  sha256 : String
deriving DecidableEq

/-- Catalog from src/domain/model.rs.  The derived index fields
(prompt_index, ..., collection_lookup, membership) built by finalize are
embedded below as functions of these lists. -/
structure Catalog where
  prompts : List Prompt
  instructions : List Instruction
  chat_modes : List ChatMode
  collections : List Collection
deriving DecidableEq

/-- EnablementFile from src/domain/model.rs.  BTreeMap is a key-sorted
association list; the chrono timestamp is opaque to the core and kept as
a string; the serde overrides field is unused by the engine and omitted. -/
structure EnablementFile where
  version : Nat
  updated_at : Option String
  prompts : List (String × Bool)
  instructions : List (String × Bool)
  chat_modes : List (String × Bool)
  collections : List (String × Bool)
deriving DecidableEq

/-- BTreeMap::get, returning the value stored at a key. -/
def mapGet (m : List (String × Bool)) (k : String) : Option Bool :=
  (m.find? (fun pr => pr.1 == k)).map (fun pr => pr.2)

/-- BTreeMap::insert on a key-sorted association list. -/
def mapInsert : List (String × Bool) → String → Bool → List (String × Bool)
  | [], k, v => [(k, v)]
  | (k1, v1) :: rest, k, v =>
    if k == k1 then (k, v) :: rest
    else if strLt k k1 then (k, v) :: (k1, v1) :: rest
    else (k1, v1) :: mapInsert rest k v

/-- BTreeMap::remove on an association list. -/
def mapRemove (m : List (String × Bool)) (k : String) : List (String × Bool) :=
  m.filter (fun pr => !(pr.1 == k))

/-- EnablementFile::map_for. -/
def EnablementFile.map_for (e : EnablementFile) : AssetKind → List (String × Bool)
  | .Prompt => e.prompts
  | .Instruction => e.instructions
  | .ChatMode => e.chat_modes
  | .Collection => e.collections

/-- Functional update of the map selected by map_for_mut. -/
def EnablementFile.with_map (e : EnablementFile) : AssetKind → List (String × Bool) → EnablementFile
  | .Prompt, m => { e with prompts := m }
  | .Instruction, m => { e with instructions := m }
  | .ChatMode, m => { e with chat_modes := m }
  | .Collection, m => { e with collections := m }

/-- EnablementFile::set. -/
def EnablementFile.set (e : EnablementFile) (kind : AssetKind) (path : String) (value : Bool) :
    EnablementFile :=
  e.with_map kind (mapInsert (e.map_for kind) path value)

/-- EnablementFile::remove. -/
def EnablementFile.remove (e : EnablementFile) (kind : AssetKind) (path : String) :
    EnablementFile :=
  e.with_map kind (mapRemove (e.map_for kind) path)

/-- Catalog::contains, via the per-kind index sets built by finalize. -/
def Catalog.contains (c : Catalog) : AssetKind → String → Bool
  | .Prompt, p => c.prompts.any (fun x => x.path == p)
  | .Instruction, p => c.instructions.any (fun x => x.path == p)
  | .ChatMode, p => c.chat_modes.any (fun x => x.path == p)
  | .Collection, p => c.collections.any (fun x => x.path == p)

/-- Catalog::collection_by_id (first collection in catalog order with the id). -/
def Catalog.collection_by_id (c : Catalog) (id : String) : Option Collection :=
  c.collections.find? (fun col => col.id == id)

/-- The per-path membership entries pushed by Catalog::finalize, in catalog
order, before the final sort: one occurrence of the collection id for every
item of the collection whose path matches. -/
def Catalog.membershipRaw (c : Catalog) (p : String) : List String :=
  c.collections.flatMap (fun col => (col.items.filter (fun it => it.path == p)).map (fun _ => col.id))

/-- Catalog::memberships after finalize: the pushed ids, sorted. -/
def Catalog.memberships (c : Catalog) (p : String) : List String :=
  List.insertionSort strLeR (c.membershipRaw p)

/-- CollectionRef from src/domain/state.rs. -/
structure CollectionRef where
  id : String
  name : String
  path : String
deriving DecidableEq

/-- InheritedState from src/domain/state.rs. -/
structure InheritedState where
  collection : CollectionRef
  value : Bool
deriving DecidableEq

/-- AssetView from src/domain/state.rs.  The Rust field named local is a
reserved word in Lean and is embedded as localStatus. -/
structure AssetView where
  kind : AssetKind
  path : String
  slug : Option String
  name : String
  description : String
  tags : List String
  apply_to : List String
  mode : Option String
  tools : List String
  collections : List CollectionRef
  member_count : Nat
  explicit : Option Bool
  inherited : Option InheritedState
  effective : Bool
  localStatus : LocalStatus
deriving DecidableEq

/-- OrphanEntry from src/domain/state.rs. -/
structure OrphanEntry where
  kind : AssetKind
  path : String
  value : Bool
deriving DecidableEq

/-- DomainState from src/domain/state.rs.  The BTreeMap from AssetKind to
Vec of AssetView is embedded as one list field per kind (the only keys the
code ever inserts), exposed through DomainState.assets below. -/
structure DomainState where
  catalog : Catalog
  enablement : EnablementFile
  promptAssets : List AssetView
  instructionAssets : List AssetView
  chatModeAssets : List AssetView
  collectionAssets : List AssetView
  orphansList : List OrphanEntry
deriving DecidableEq

/-- DomainState::assets accessor. -/
def DomainState.assets (s : DomainState) : AssetKind → List AssetView
  | .Prompt => s.promptAssets
  | .Instruction => s.instructionAssets
  | .ChatMode => s.chatModeAssets
  | .Collection => s.collectionAssets

/-- DomainState::orphans accessor. -/
def DomainState.orphans (s : DomainState) : List OrphanEntry := s.orphansList

/-- DomainState::explicit_state. -/
def explicit_state (en : EnablementFile) (kind : AssetKind) (path : String) : Option Bool :=
  mapGet (en.map_for kind) path

/-- The candidate pairs gathered by DomainState::inherited_state before the
final sort:  walk the sorted membership ids, look the collection up by id,
and keep it when the collections map has an entry for its path. -/
def inherited_candidates (cat : Catalog) (en : EnablementFile) (path : String) :
    List InheritedState :=
  (cat.memberships path).filterMap (fun cid =>
    match cat.collection_by_id cid with
    | some col =>
      match mapGet en.collections col.path with
      | some v => some { collection := { id := col.id, name := col.name, path := col.path }, value := v }
      | none => none
    | none => none)

/-- Candidate comparison used by the sort in DomainState::inherited_state. -/
def inhLeR : InheritedState → InheritedState → Prop :=
  fun a b => strLe a.collection.id b.collection.id = true

instance : DecidableRel inhLeR :=
  fun a b => instDecidableEqBool (strLe a.collection.id b.collection.id) true

/-- DomainState::inherited_state: sort the candidates by collection id and
take the first. -/
def inherited_state (cat : Catalog) (en : EnablementFile) (path : String) :
    Option InheritedState :=
  (List.insertionSort inhLeR (inherited_candidates cat en path)).head?

/-- DomainState::collections_for. -/
def collections_for (cat : Catalog) (path : String) : List CollectionRef :=
  (cat.memberships path).filterMap (fun cid =>
    (cat.collection_by_id cid).map (fun c => { id := c.id, name := c.name, path := c.path }))

/-- DomainState::build_prompt_view. -/
def build_prompt_view (cat : Catalog) (en : EnablementFile) (prompt : Prompt) : AssetView :=
  let explicit := explicit_state en .Prompt prompt.path
  let inherited := inherited_state cat en prompt.path
  let effective := explicit.getD ((inherited.map (fun s => s.value)).getD false)
  { kind := .Prompt
    path := prompt.path
    slug := some prompt.slug
    name := prompt.name
    description := prompt.description
    tags := prompt.tags
    apply_to := []
    mode := if prompt.mode == "" then none else some prompt.mode
    tools := []
    collections := collections_for cat prompt.path
    member_count := 0
    explicit := explicit
    inherited := inherited
    effective := effective
    localStatus := .NA }

/-- DomainState::build_instruction_view. -/
def build_instruction_view (cat : Catalog) (en : EnablementFile) (instruction : Instruction) :
    AssetView :=
  let explicit := explicit_state en .Instruction instruction.path
  let inherited := inherited_state cat en instruction.path
  let effective := explicit.getD ((inherited.map (fun s => s.value)).getD false)
  { kind := .Instruction
    path := instruction.path
    slug := some instruction.slug
    name := instruction.name
    description := instruction.description
    tags := instruction.tags
    apply_to := instruction.apply_to
    mode := none
    tools := []
    collections := collections_for cat instruction.path
    member_count := 0
    explicit := explicit
    inherited := inherited
    effective := effective
    localStatus := .NA }

/-- DomainState::build_chat_mode_view. -/
def build_chat_mode_view (cat : Catalog) (en : EnablementFile) (mode : ChatMode) : AssetView :=
  let explicit := explicit_state en .ChatMode mode.path
  let inherited := inherited_state cat en mode.path
  let effective := explicit.getD ((inherited.map (fun s => s.value)).getD false)
  { kind := .ChatMode
    path := mode.path
    slug := some mode.slug
    name := mode.name
    description := mode.description
    tags := mode.tags
    apply_to := []
    mode := none
    tools := mode.tools
    collections := collections_for cat mode.path
    member_count := 0
    explicit := explicit
    inherited := inherited
    effective := effective
    localStatus := .NA }

/-- DomainState::build_collection_view. -/
def build_collection_view (cat : Catalog) (en : EnablementFile) (collection : Collection) :
    AssetView :=
  let explicit := explicit_state en .Collection collection.path
  let effective := explicit.getD false
  { kind := .Collection
    path := collection.path
    slug := some collection.id
    name := collection.name
    description := collection.description
    tags := collection.tags
    apply_to := []
    mode := none
    tools := []
    collections := []
    member_count := collection.items.length
    explicit := explicit
    inherited := none
    effective := effective
    localStatus := .NA }

/-- View comparison used by the per-kind sorts in DomainState::recompute:
case-insensitive order on the display name. -/
def viewLeR : AssetView → AssetView → Prop :=
  fun a b => strLe (strToLower a.name) (strToLower b.name) = true

instance : DecidableRel viewLeR :=
  fun a b => instDecidableEqBool (strLe (strToLower a.name) (strToLower b.name)) true

/-- The per-kind sorted view lists built by DomainState::recompute. -/
def viewsFor (cat : Catalog) (en : EnablementFile) : AssetKind → List AssetView
  | .Prompt => List.insertionSort viewLeR (cat.prompts.map (build_prompt_view cat en))
  | .Instruction => List.insertionSort viewLeR (cat.instructions.map (build_instruction_view cat en))
  | .ChatMode => List.insertionSort viewLeR (cat.chat_modes.map (build_chat_mode_view cat en))
  | .Collection => List.insertionSort viewLeR (cat.collections.map (build_collection_view cat en))

/-- Orphan comparison used by the sort in DomainState::collect_orphans. -/
def orphanLeR : OrphanEntry → OrphanEntry → Prop :=
  fun a b => strLe a.path b.path = true

instance : DecidableRel orphanLeR :=
  fun a b => instDecidableEqBool (strLe a.path b.path) true

/-- The orphan entries gathered by DomainState::collect_orphans before the
final sort: per-kind map entries whose path the catalog does not contain,
in the fixed kind order of the code. -/
def orphansRaw (cat : Catalog) (en : EnablementFile) : List OrphanEntry :=
  (en.prompts.filter (fun pr => !(cat.contains .Prompt pr.1))).map
      (fun pr => { kind := .Prompt, path := pr.1, value := pr.2 })
    ++ (en.instructions.filter (fun pr => !(cat.contains .Instruction pr.1))).map
      (fun pr => { kind := .Instruction, path := pr.1, value := pr.2 })
    ++ (en.chat_modes.filter (fun pr => !(cat.contains .ChatMode pr.1))).map
      (fun pr => { kind := .ChatMode, path := pr.1, value := pr.2 })
    ++ (en.collections.filter (fun pr => !(cat.contains .Collection pr.1))).map
      (fun pr => { kind := .Collection, path := pr.1, value := pr.2 })

/-- DomainState::collect_orphans: the gathered entries sorted by path. -/
def collect_orphans (cat : Catalog) (en : EnablementFile) : List OrphanEntry :=
  List.insertionSort orphanLeR (orphansRaw cat en)

/-- DomainState::recompute: rebuild every per-kind view list and the orphan
list from the catalog and the override store. -/
def recompute (s : DomainState) : DomainState :=
  { s with
    promptAssets := viewsFor s.catalog s.enablement .Prompt
    instructionAssets := viewsFor s.catalog s.enablement .Instruction
    chatModeAssets := viewsFor s.catalog s.enablement .ChatMode
    collectionAssets := viewsFor s.catalog s.enablement .Collection
    orphansList := collect_orphans s.catalog s.enablement }

/-- DomainState::new. -/
def DomainState.new (catalog : Catalog) (enablement : EnablementFile) : DomainState :=
  recompute
    { catalog := catalog
      enablement := enablement
      promptAssets := []
      instructionAssets := []
      chatModeAssets := []
      collectionAssets := []
      orphansList := [] }

/-- DomainState::cleanup_orphans, returning the new state and the removed
count. -/
def cleanup_orphans (s : DomainState) : DomainState × Nat :=
  let orphans := collect_orphans s.catalog s.enablement
  let removed := orphans.length
  if removed == 0 then (s, 0)
  else
    let en := orphans.foldl (fun e o => e.remove o.kind o.path) s.enablement
    (recompute { s with enablement := en }, removed)

/-- ToggleResult from src/domain/toggle.rs. -/
structure ToggleResult where
  asset : AssetView
deriving DecidableEq

/-- toggle_asset from src/domain/toggle.rs.  The Rust function mutates the
state and returns an anyhow Result; the embedding returns the state it
leaves behind together with the result. -/
def toggle_asset (s : DomainState) (kind : AssetKind) (path : String) :
    DomainState × Except String ToggleResult :=
  match (s.assets kind).find? (fun a => a.path == path) with
  | none => (s, .error ("Asset not found for toggle: " ++ path))
  | some asset =>
    let current_effective := asset.effective
    let inherited_value := asset.inherited.map (fun inherit => inherit.value)
    let desired := !current_effective
    let baseline := inherited_value.getD true
    let new_explicit : Option Bool := if desired == baseline then none else some desired
    let s1 : DomainState :=
      { s with
        enablement :=
          match new_explicit with
          | some value => s.enablement.set kind path value
          | none => s.enablement.remove kind path }
    let s2 := recompute s1
    match (s2.assets kind).find? (fun a => a.path == path) with
    | some updated => (s2, .ok { asset := updated })
    | none => (s2, .error ("Asset missing after toggle recompute: " ++ path))

/-- MemberToggleImpact from src/domain/toggle.rs. -/
inductive MemberToggleImpact where
  | WillEnable
  | WillDisable
  | Unchanged
deriving DecidableEq

/-- MemberImpact from src/domain/toggle.rs. -/
structure MemberImpact where
  path : String
  name : String
  kind : AssetKind
  current_effective : Bool
  new_effective : Bool
  impact : MemberToggleImpact
deriving DecidableEq

/-- CollectionToggleImpact from src/domain/toggle.rs. -/
structure CollectionToggleImpact where
  collection_name : String
  collection_will_enable : Bool
  total_members : Nat
  enable_count : Nat
  disable_count : Nat
  unchanged_count : Nat
  affected_members : List MemberImpact
deriving DecidableEq

/-- The member loop of analyze_collection_toggle_impact: returns the
enable, disable and unchanged counts and the affected-member records, in
item order; items whose path is absent from the resolved views of their
kind are skipped. -/
def impact_items (s : DomainState) (will_enable : Bool) :
    List CollectionItem → Nat × Nat × Nat × List MemberImpact
  | [] => (0, 0, 0, [])
  | item :: rest =>
    match (s.assets item.kind).find? (fun a => a.path == item.path) with
    | none => impact_items s will_enable rest
    | some member =>
      let current_effective := member.effective
      let new_effective := if member.explicit.isSome then current_effective else will_enable
      let tail := impact_items s will_enable rest
      let counts :=
        if current_effective == new_effective then
          (tail.1, tail.2.1, tail.2.2.1 + 1, MemberToggleImpact.Unchanged)
        else if new_effective then
          (tail.1 + 1, tail.2.1, tail.2.2.1, MemberToggleImpact.WillEnable)
        else
          (tail.1, tail.2.1 + 1, tail.2.2.1, MemberToggleImpact.WillDisable)
      (counts.1, counts.2.1, counts.2.2.1,
        { path := item.path
          name := member.name
          kind := item.kind
          current_effective := current_effective
          new_effective := new_effective
          impact := counts.2.2.2 } :: tail.2.2.2)

/-- analyze_collection_toggle_impact from src/domain/toggle.rs. -/
def analyze_collection_toggle_impact (s : DomainState) (collection_path : String) :
    Except String CollectionToggleImpact :=
  match s.catalog.collections.find? (fun c => c.path == collection_path) with
  | none => .error ("Collection not found: " ++ collection_path)
  | some collection =>
    match (s.assets .Collection).find? (fun a => a.path == collection_path) with
    | none => .error ("Collection view not found: " ++ collection_path)
    | some collection_view =>
      let will_enable := !collection_view.effective
      let r := impact_items s will_enable collection.items
      .ok
        { collection_name := collection.name
          collection_will_enable := will_enable
          total_members := collection.items.length
          enable_count := r.1
          disable_count := r.2.1
          unchanged_count := r.2.2.1
          affected_members := r.2.2.2 }

deriving instance DecidableEq for Except

/-- The collections an asset path belongs to that carry an explicit
override on their own path: the qualifying collections of the resolution
rule, used to state the tie-break claim. -/
def qualifying (cat : Catalog) (en : EnablementFile) (p : String) : List Collection :=
  cat.collections.filter
    (fun col => col.items.any (fun it => it.path == p) && (mapGet en.collections col.path).isSome)

/-- Key-sortedness invariant of the BTreeMap embedding: keys strictly
increasing, hence unique. -/
abbrev SortedKeys (m : List (String × Bool)) : Prop :=
  List.Pairwise (fun a b => strLt a.1 b.1 = true) m

/-- An empty override store (version 1, no timestamp, empty maps). -/
def enEmpty : EnablementFile :=
  { version := 1, updated_at := none, prompts := [], instructions := [], chat_modes := [],
    collections := [] }

/-- The instruction of the concrete scenario of the spec. -/
def exInstr : Instruction :=
  { path := "i1", slug := "i1", name := "i1", description := "", apply_to := [], tags := [],
    sha256 := "" }

/-- The collection of the concrete scenario of the spec, sole owner of i1. -/
def exColl : Collection :=
  { path := "c1", id := "c1", slug := "c1", name := "c1", description := "", tags := [],
    items := [{ path := "i1", kind := .Instruction }], sha256 := "" }

/-- Catalog of the concrete scenario: instruction i1 inside collection c1. -/
def exCatalog : Catalog :=
  { prompts := [], instructions := [exInstr], chat_modes := [], collections := [exColl] }

/-- Override store of the concrete scenario: collections map c1 to false. -/
def exStore : EnablementFile := { enEmpty with collections := [("c1", false)] }

/-- Resolved state of the concrete scenario. -/
def exState : DomainState := DomainState.new exCatalog exStore

/-- Resolved state over the scenario catalog with an empty store. -/
def exStateEmpty : DomainState := DomainState.new exCatalog enEmpty

/-- A prompt carrying an explicit true override, for the double-toggle
counterexample. -/
def exPrompt : Prompt :=
  { path := "p1", slug := "p1", name := "p1", description := "", mode := "", tags := [],
    sha256 := "" }

/-- Catalog holding only exPrompt. -/
def exPromptCatalog : Catalog :=
  { prompts := [exPrompt], instructions := [], chat_modes := [], collections := [] }

/-- Resolved state with the prompt explicitly enabled. -/
def exPromptState : DomainState :=
  DomainState.new exPromptCatalog { enEmpty with prompts := [("p1", true)] }

/-- First collection of the duplicate-id counterexample. -/
def dupCollA : Collection :=
  { path := "pa", id := "dup", slug := "a", name := "a", description := "", tags := [],
    items := [{ path := "x", kind := .Instruction }], sha256 := "" }

/-- Second collection of the duplicate-id counterexample, same id. -/
def dupCollB : Collection :=
  { path := "pb", id := "dup", slug := "b", name := "b", description := "", tags := [],
    items := [{ path := "x", kind := .Instruction }], sha256 := "" }

/-- The instruction shared by the two duplicate-id collections. -/
def dupInstr : Instruction :=
  { path := "x", slug := "x", name := "x", description := "", apply_to := [], tags := [],
    sha256 := "" }

/-- Duplicate-id catalog, first ordering. -/
def dupCatalog1 : Catalog :=
  { prompts := [], instructions := [dupInstr], chat_modes := [], collections := [dupCollA, dupCollB] }

/-- Duplicate-id catalog, collections reversed. -/
def dupCatalog2 : Catalog :=
  { prompts := [], instructions := [dupInstr], chat_modes := [], collections := [dupCollB, dupCollA] }

/-- Store giving both duplicate-id collections explicit overrides with
opposite values. -/
def dupStore : EnablementFile := { enEmpty with collections := [("pa", false), ("pb", true)] }

/-- Collection listing the same member path under two kinds, for the
membership duplicate counterexample. -/
def twiceColl : Collection :=
  { path := "pc", id := "c", slug := "c", name := "c", description := "", tags := [],
    items := [{ path := "x", kind := .Prompt }, { path := "x", kind := .Instruction }],
    sha256 := "" }

/-- Catalog holding only twiceColl. -/
def twiceCatalog : Catalog :=
  { prompts := [], instructions := [], chat_modes := [], collections := [twiceColl] }

/-- Collection whose only item references a path absent from the catalog. -/
def ghostColl : Collection :=
  { path := "cg", id := "cg", slug := "cg", name := "cg", description := "", tags := [],
    items := [{ path := "ghost", kind := .Prompt }], sha256 := "" }

/-- Catalog holding only ghostColl. -/
def ghostCatalog : Catalog :=
  { prompts := [], instructions := [], chat_modes := [], collections := [ghostColl] }

/-- Resolved state over ghostCatalog with an empty store. -/
def ghostState : DomainState := DomainState.new ghostCatalog enEmpty

/-- The impact record the analyzer produces for ghostState. -/
def ghostImpact : CollectionToggleImpact :=
  { collection_name := "cg", collection_will_enable := true, total_members := 1,
    enable_count := 0, disable_count := 0, unchanged_count := 0, affected_members := [] }

/-- The impact record the analyzer produces for exState and c1. -/
def exImpact : CollectionToggleImpact :=
  { collection_name := "c1", collection_will_enable := true, total_members := 1,
    enable_count := 1, disable_count := 0, unchanged_count := 0,
    affected_members :=
      [{ path := "i1", name := "i1", kind := .Instruction, current_effective := false,
         new_effective := true, impact := .WillEnable }] }

/-- The member record inside exImpact. -/
def exMember : MemberImpact :=
  { path := "i1", name := "i1", kind := .Instruction, current_effective := false,
    new_effective := true, impact := .WillEnable }

/-- The resolved view of the instruction i1 in exState. -/
def exInstrView : AssetView :=
  { kind := .Instruction, path := "i1", slug := some "i1", name := "i1", description := "",
    tags := [], apply_to := [], mode := none, tools := [],
    collections := [{ id := "c1", name := "c1", path := "c1" }], member_count := 0,
    explicit := none,
    inherited := some { collection := { id := "c1", name := "c1", path := "c1" }, value := false },
    effective := false, localStatus := .NA }

/-- First collection of the distinct-id tie-break witness. -/
def tieCollA : Collection :=
  { path := "qa", id := "a", slug := "a", name := "a", description := "", tags := [],
    items := [{ path := "y", kind := .Instruction }], sha256 := "" }

/-- Second collection of the distinct-id tie-break witness. -/
def tieCollB : Collection :=
  { path := "qb", id := "b", slug := "b", name := "b", description := "", tags := [],
    items := [{ path := "y", kind := .Instruction }], sha256 := "" }

/-- The instruction shared by the two tie-break collections. -/
def tieInstr : Instruction :=
  { path := "y", slug := "y", name := "y", description := "", apply_to := [], tags := [],
    sha256 := "" }

/-- Catalog of the tie-break witness. -/
def tieCatalog : Catalog :=
  { prompts := [], instructions := [tieInstr], chat_modes := [], collections := [tieCollA, tieCollB] }

/-- Store giving both tie-break collections explicit overrides. -/
def tieStore : EnablementFile := { enEmpty with collections := [("qa", true), ("qb", false)] }

theorem charEq_of_toNat {a b : Char} (h : a.toNat = b.toNat) : a = b :=
  Char.ext (UInt32.ext h)

theorem ltCh_cons_lt {a b : Char} {as bs : List Char} (h : a.toNat < b.toNat) :
    strLtChars (a :: as) (b :: bs) = true := by
  simp [strLtChars, charLt, h]

theorem ltCh_cons_gt {a b : Char} {as bs : List Char} (h : b.toNat < a.toNat) :
    strLtChars (a :: as) (b :: bs) = false := by
  simp [strLtChars, charLt, Nat.lt_asymm h, h]

theorem ltCh_cons_eq {a b : Char} {as bs : List Char} (h : a.toNat = b.toNat) :
    strLtChars (a :: as) (b :: bs) = strLtChars as bs := by
  simp [strLtChars, charLt, h, Nat.lt_irrefl]

theorem ltCh_irrefl : ∀ l : List Char, strLtChars l l = false := by
  intro l
  induction l with
  | nil => rfl
  | cons a as ih => rw [ltCh_cons_eq rfl]; exact ih

theorem ltCh_asymm : ∀ l1 l2 : List Char, strLtChars l1 l2 = true → strLtChars l2 l1 = false := by
  intro l1
  induction l1 with
  | nil =>
    intro l2 h
    cases l2 with
    | nil => simpa [strLtChars] using h
    | cons b bs => simp [strLtChars]
  | cons a as ih =>
    intro l2 h
    cases l2 with
    | nil => simp [strLtChars] at h
    | cons b bs =>
      rcases Nat.lt_trichotomy a.toNat b.toNat with hlt | heq | hgt
      · exact ltCh_cons_gt hlt
      · rw [ltCh_cons_eq heq] at h
        rw [ltCh_cons_eq heq.symm]
        exact ih bs h
      · rw [ltCh_cons_gt hgt] at h
        exact absurd h (by simp)

theorem ltCh_trans :
    ∀ l1 l2 l3 : List Char, strLtChars l1 l2 = true → strLtChars l2 l3 = true →
      strLtChars l1 l3 = true := by
  intro l1
  induction l1 with
  | nil =>
    intro l2 l3 h12 h23
    cases l3 with
    | nil =>
      cases l2 with
      | nil => simpa [strLtChars] using h12
      | cons b bs => simp [strLtChars] at h23
    | cons c cs => simp [strLtChars]
  | cons a as ih =>
    intro l2 l3 h12 h23
    cases l2 with
    | nil => simp [strLtChars] at h12
    | cons b bs =>
      cases l3 with
      | nil => simp [strLtChars] at h23
      | cons c cs =>
        rcases Nat.lt_trichotomy a.toNat b.toNat with hab | hab | hab
        · rcases Nat.lt_trichotomy b.toNat c.toNat with hbc | hbc | hbc
          · exact ltCh_cons_lt (Nat.lt_trans hab hbc)
          · exact ltCh_cons_lt (hbc ▸ hab)
          · rw [ltCh_cons_gt hbc] at h23
            exact absurd h23 (by simp)
        · rcases Nat.lt_trichotomy b.toNat c.toNat with hbc | hbc | hbc
          · exact ltCh_cons_lt (hab ▸ hbc)
          · rw [ltCh_cons_eq (hab.trans hbc)]
            rw [ltCh_cons_eq hab] at h12
            rw [ltCh_cons_eq hbc] at h23
            exact ih bs cs h12 h23
          · rw [ltCh_cons_gt hbc] at h23
            exact absurd h23 (by simp)
        · rw [ltCh_cons_gt hab] at h12
          exact absurd h12 (by simp)

theorem ltCh_connex :
    ∀ l1 l2 : List Char, strLtChars l1 l2 = false → strLtChars l2 l1 = false → l1 = l2 := by
  intro l1
  induction l1 with
  | nil =>
    intro l2 h12 h21
    cases l2 with
    | nil => rfl
    | cons b bs => simp [strLtChars] at h12
  | cons a as ih =>
    intro l2 h12 h21
    cases l2 with
    | nil => simp [strLtChars] at h21
    | cons b bs =>
      rcases Nat.lt_trichotomy a.toNat b.toNat with hab | hab | hab
      · rw [ltCh_cons_lt hab] at h12
        exact absurd h12 (by simp)
      · have hchar : a = b := charEq_of_toNat hab
        subst hchar
        rw [ltCh_cons_eq rfl] at h12 h21
        exact congrArg (a :: ·) (ih bs h12 h21)
      · rw [ltCh_cons_lt hab] at h21
        exact absurd h21 (by simp)

theorem strLe_refl (a : String) : strLe a a = true := by
  simp [strLe, strLt, ltCh_irrefl]

theorem strLe_total (a b : String) : strLe a b = true ∨ strLe b a = true := by
  by_cases h1 : strLtChars b.data a.data = true
  · right
    simp [strLe, strLt, ltCh_asymm _ _ h1]
  · left
    simp only [strLe, strLt, Bool.not_eq_true']
    exact Bool.not_eq_true _ ▸ h1

theorem strLe_trans (a b c : String) (h1 : strLe a b = true) (h2 : strLe b c = true) :
    strLe a c = true := by
  simp only [strLe, strLt, Bool.not_eq_true'] at h1 h2 ⊢
  cases hca : strLtChars c.data a.data with
  | false => rfl
  | true =>
    cases hab : strLtChars a.data b.data with
    | true =>
      have hcb : strLtChars c.data b.data = true := ltCh_trans _ _ _ hca hab
      rw [hcb] at h2
      exact h2
    | false =>
      have heq : a.data = b.data := ltCh_connex _ _ hab h1
      rw [heq] at hca
      rw [hca] at h2
      exact h2

theorem string_data_inj {a b : String} (h : a.data = b.data) : a = b := by
  cases a
  cases b
  exact congrArg String.mk h

theorem strLe_antisymm (a b : String) (h1 : strLe a b = true) (h2 : strLe b a = true) : a = b := by
  simp only [strLe, strLt, Bool.not_eq_true'] at h1 h2
  exact string_data_inj (ltCh_connex _ _ h2 h1)

instance : IsTotal String strLeR := ⟨fun a b => strLe_total a b⟩

instance : IsTrans String strLeR := ⟨fun a b c => strLe_trans a b c⟩

instance : IsAntisymm String strLeR := ⟨fun a b => strLe_antisymm a b⟩

instance : IsTotal InheritedState inhLeR := ⟨fun a b => strLe_total a.collection.id b.collection.id⟩

instance : IsTrans InheritedState inhLeR :=
  ⟨fun a b c => strLe_trans a.collection.id b.collection.id c.collection.id⟩

instance : IsTotal AssetView viewLeR :=
  ⟨fun a b => strLe_total (strToLower a.name) (strToLower b.name)⟩

instance : IsTrans AssetView viewLeR :=
  ⟨fun a b c => strLe_trans (strToLower a.name) (strToLower b.name) (strToLower c.name)⟩

instance : IsTotal OrphanEntry orphanLeR := ⟨fun a b => strLe_total a.path b.path⟩

instance : IsTrans OrphanEntry orphanLeR := ⟨fun a b c => strLe_trans a.path b.path c.path⟩

theorem mapGet_mapInsert (m : List (String × Bool)) (k : String) (v : Bool) (q : String) :
    mapGet (mapInsert m k v) q = if q = k then some v else mapGet m q := by
  induction m with
  | nil =>
    by_cases hqk : q = k
    · simp [mapInsert, mapGet, hqk]
    · simp [mapInsert, mapGet, hqk, List.find?_cons, beq_eq_false_iff_ne.mpr (Ne.symm hqk)]
  | cons hd tl ih =>
    obtain ⟨k1, v1⟩ := hd
    by_cases hkk1 : k = k1
    · subst hkk1
      by_cases hqk : q = k
      · subst hqk
        simp [mapInsert, mapGet, List.find?_cons]
      · simp [mapInsert, mapGet, List.find?_cons, hqk,
          beq_eq_false_iff_ne.mpr (Ne.symm hqk)]
    · by_cases hlt : strLt k k1 = true
      · by_cases hqk : q = k
        · subst hqk
          simp [mapInsert, beq_eq_false_iff_ne.mpr hkk1, hlt, mapGet, List.find?_cons]
        · simp [mapInsert, beq_eq_false_iff_ne.mpr hkk1, hlt, mapGet, List.find?_cons,
            beq_eq_false_iff_ne.mpr (Ne.symm hqk), hqk]
      · have hmap : mapInsert ((k1, v1) :: tl) k v = (k1, v1) :: mapInsert tl k v := by
          simp [mapInsert, beq_eq_false_iff_ne.mpr hkk1, hlt]
        rw [hmap]
        by_cases hqk1 : q = k1
        · subst hqk1
          have hqk : ¬q = k := fun hq => hkk1 hq.symm
          simp [mapGet, List.find?_cons, hqk]
        · simp only [mapGet, List.find?_cons, beq_eq_false_iff_ne.mpr (Ne.symm hqk1)]
          simpa [mapGet] using ih

theorem length_filter_eq_zero {α : Type} (p : α → Bool) (l : List α)
    (h : ∀ a ∈ l, p a = false) : (l.filter p).length = 0 := by
  rw [List.length_eq_zero]
  exact List.filter_eq_nil_iff.mpr (fun a ha => by simp [h a ha])

theorem sortedKeys_insert_count (m : List (String × Bool)) (k : String) (v : Bool)
    (h : SortedKeys m) :
    ((mapInsert m k v).filter (fun pr => pr.1 == k)).length = 1 := by
  induction m with
  | nil => simp [mapInsert]
  | cons hd tl ih =>
    obtain ⟨k1, v1⟩ := hd
    have hpair := (List.pairwise_cons.mp h).1
    have htl := (List.pairwise_cons.mp h).2
    by_cases hkk1 : k = k1
    · subst hkk1
      have htlz : (tl.filter (fun pr => pr.1 == k)).length = 0 := by
        apply length_filter_eq_zero
        intro pr hpr
        have hlt := hpair pr hpr
        apply beq_eq_false_iff_ne.mpr
        intro heq
        rw [heq] at hlt
        simp [strLt, ltCh_irrefl] at hlt
      simp [mapInsert, List.filter_cons, htlz, List.length_eq_zero.mp htlz]
    · by_cases hlt : strLt k k1 = true
      · have htlz : ((k1, v1) :: tl).filter (fun pr => pr.1 == k) = [] := by
          apply List.filter_eq_nil_iff.mpr
          intro pr hpr
          simp only [Bool.not_eq_true]
          apply beq_eq_false_iff_ne.mpr
          rcases List.mem_cons.mp hpr with hh | hh
          · rw [hh]
            exact fun heq => hkk1 heq.symm
          · have hlt2 := hpair pr hh
            intro heq
            rw [heq] at hlt2
            have := ltCh_trans _ _ _ hlt hlt2
            simp [strLt] at hlt2 hlt
            have habs := ltCh_trans _ _ _ hlt hlt2
            have := ltCh_irrefl k.data
            rw [habs] at this
            cases this
        simp [mapInsert, beq_eq_false_iff_ne.mpr hkk1, hlt, List.filter_cons, htlz]
      · have hmap : mapInsert ((k1, v1) :: tl) k v = (k1, v1) :: mapInsert tl k v := by
          simp [mapInsert, beq_eq_false_iff_ne.mpr hkk1, hlt]
        rw [hmap]
        have hk1ne : (k1 == k) = false := beq_eq_false_iff_ne.mpr (fun heq => hkk1 heq.symm)
        simp [List.filter_cons, hk1ne, ih htl]

theorem map_for_with_map (e : EnablementFile) (k1 k2 : AssetKind) (m : List (String × Bool)) :
    (e.with_map k1 m).map_for k2 = if k1 = k2 then m else e.map_for k2 := by
  cases k1 <;> cases k2 <;> simp [EnablementFile.with_map, EnablementFile.map_for]

theorem assets_recompute (s : DomainState) (k : AssetKind) :
    (recompute s).assets k = viewsFor s.catalog s.enablement k := by
  cases k <;> rfl

theorem find_viewsFor_isSome (cat : Catalog) (en : EnablementFile) (kind : AssetKind)
    (path : String) :
    ((viewsFor cat en kind).find? (fun a => a.path == path)).isSome = true ↔
      cat.contains kind path = true := by
  cases kind with
  | Prompt =>
    rw [List.find?_isSome]
    constructor
    · rintro ⟨v, hv, hp⟩
      have hv2 := ((List.perm_insertionSort viewLeR _).mem_iff).mp hv
      obtain ⟨e, he, rfl⟩ := List.mem_map.mp hv2
      exact List.any_eq_true.mpr ⟨e, he, hp⟩
    · intro hc
      obtain ⟨e, he, hp⟩ := List.any_eq_true.mp hc
      exact ⟨build_prompt_view cat en e,
        ((List.perm_insertionSort viewLeR _).mem_iff).mpr (List.mem_map.mpr ⟨e, he, rfl⟩), hp⟩
  | Instruction =>
    rw [List.find?_isSome]
    constructor
    · rintro ⟨v, hv, hp⟩
      have hv2 := ((List.perm_insertionSort viewLeR _).mem_iff).mp hv
      obtain ⟨e, he, rfl⟩ := List.mem_map.mp hv2
      exact List.any_eq_true.mpr ⟨e, he, hp⟩
    · intro hc
      obtain ⟨e, he, hp⟩ := List.any_eq_true.mp hc
      exact ⟨build_instruction_view cat en e,
        ((List.perm_insertionSort viewLeR _).mem_iff).mpr (List.mem_map.mpr ⟨e, he, rfl⟩), hp⟩
  | ChatMode =>
    rw [List.find?_isSome]
    constructor
    · rintro ⟨v, hv, hp⟩
      have hv2 := ((List.perm_insertionSort viewLeR _).mem_iff).mp hv
      obtain ⟨e, he, rfl⟩ := List.mem_map.mp hv2
      exact List.any_eq_true.mpr ⟨e, he, hp⟩
    · intro hc
      obtain ⟨e, he, hp⟩ := List.any_eq_true.mp hc
      exact ⟨build_chat_mode_view cat en e,
        ((List.perm_insertionSort viewLeR _).mem_iff).mpr (List.mem_map.mpr ⟨e, he, rfl⟩), hp⟩
  | Collection =>
    rw [List.find?_isSome]
    constructor
    · rintro ⟨v, hv, hp⟩
      have hv2 := ((List.perm_insertionSort viewLeR _).mem_iff).mp hv
      obtain ⟨e, he, rfl⟩ := List.mem_map.mp hv2
      exact List.any_eq_true.mpr ⟨e, he, hp⟩
    · intro hc
      obtain ⟨e, he, hp⟩ := List.any_eq_true.mp hc
      exact ⟨build_collection_view cat en e,
        ((List.perm_insertionSort viewLeR _).mem_iff).mpr (List.mem_map.mpr ⟨e, he, rfl⟩), hp⟩

/-- C5: for every AssetView produced by any recompute, over every catalog
and override store, effective equals the explicit override when present,
else the inherited value when present, else false. -/
theorem c5_effective_invariant (s : DomainState) (kind : AssetKind) (v : AssetView)
    (hv : v ∈ (recompute s).assets kind) :
    v.effective = v.explicit.getD ((v.inherited.map (fun i => i.value)).getD false) := by
  rw [assets_recompute] at hv
  cases kind with
  | Prompt =>
    obtain ⟨e, he, rfl⟩ :=
      List.mem_map.mp (((List.perm_insertionSort viewLeR _).mem_iff).mp hv)
    rfl
  | Instruction =>
    obtain ⟨e, he, rfl⟩ :=
      List.mem_map.mp (((List.perm_insertionSort viewLeR _).mem_iff).mp hv)
    rfl
  | ChatMode =>
    obtain ⟨e, he, rfl⟩ :=
      List.mem_map.mp (((List.perm_insertionSort viewLeR _).mem_iff).mp hv)
    rfl
  | Collection =>
    obtain ⟨e, he, rfl⟩ :=
      List.mem_map.mp (((List.perm_insertionSort viewLeR _).mem_iff).mp hv)
    rfl

/-- Witness for C5 at the concrete scenario state and its instruction view. -/
theorem c5_effective_invariant_witness :
    exInstrView ∈ (recompute exState).assets .Instruction ∧
      exInstrView.effective =
        exInstrView.explicit.getD ((exInstrView.inherited.map (fun i => i.value)).getD false) :=
  ⟨by decide, c5_effective_invariant exState .Instruction exInstrView (by decide)⟩

/-- C8: on a state whose views are in sync with its catalog and store,
toggle returns an error exactly when the path is absent from the resolved
views of the kind, and in that case the override store is untouched. -/
theorem c8_toggle_not_found (s : DomainState) (kind : AssetKind) (path : String)
    (hsync : recompute s = s) :
    ((toggle_asset s kind path).2.isOk = false ↔
      (s.assets kind).find? (fun a => a.path == path) = none)
    ∧ ((toggle_asset s kind path).2.isOk = false →
      (toggle_asset s kind path).1.enablement = s.enablement) := by
  cases hfind : (s.assets kind).find? (fun a => a.path == path) with
  | none =>
    refine ⟨by simp [toggle_asset, hfind, Except.isOk, Except.toBool],
      fun _ => by simp [toggle_asset, hfind]⟩
  | some a =>
    have hcontains : s.catalog.contains kind path = true := by
      have hsome : ((s.assets kind).find? (fun x => x.path == path)).isSome = true := by
        rw [hfind]; rfl
      rw [← hsync, assets_recompute] at hsome
      exact (find_viewsFor_isSome _ _ _ _).mp hsome
    have hfound : ∀ en2 : EnablementFile,
        ((recompute { s with enablement := en2 }).assets kind).find?
          (fun x => x.path == path) ≠ none := by
      intro en2 hn
      rw [assets_recompute] at hn
      have hsome2 : ((viewsFor s.catalog en2 kind).find? (fun x => x.path == path)).isSome
          = true := (find_viewsFor_isSome _ _ _ _).mpr hcontains
      have hcat : ({ s with enablement := en2 } : DomainState).catalog = s.catalog := rfl
      rw [hcat] at hn
      have hen : ({ s with enablement := en2 } : DomainState).enablement = en2 := rfl
      rw [hen] at hn
      rw [hn] at hsome2
      cases hsome2
    simp only [toggle_asset, hfind]
    split
    · simp [Except.isOk, Except.toBool, hfind]
    · next heq => exact absurd heq (hfound _)

/-- Witness for C8 at the scenario state and an absent path. -/
theorem c8_toggle_not_found_witness :
    recompute exState = exState ∧
      (((toggle_asset exState .Prompt "nope").2.isOk = false ↔
        (exState.assets .Prompt).find? (fun a => a.path == "nope") = none)
      ∧ ((toggle_asset exState .Prompt "nope").2.isOk = false →
        (toggle_asset exState .Prompt "nope").1.enablement = exState.enablement)) :=
  ⟨by decide, c8_toggle_not_found exState .Prompt "nope" (by decide)⟩

/-- C1: evaluation of the concrete scenario on the code.  The resolve half
of the claim holds (i1 is effectively disabled with inherited state from c1
at value false), but toggling c1 removes the c1 entry instead of writing
true, and the re-resolved i1 stays disabled: the spec scenario expects the
store to become c1 maps-to true and i1 to become effective.  Cause: the
toggle baseline is true when no inherited state exists, so the desired
value true equals the baseline and the override is removed. -/
theorem c1_scenario_code_divergence :
    ((exState.assets .Instruction).find? (fun a => a.path == "i1")).map
        (fun v => (v.effective, v.inherited.map (fun i => (i.collection.id, i.value))))
        = some (false, some ("c1", false))
    ∧ (toggle_asset exState .Collection "c1").1.enablement.collections = []
    ∧ (((toggle_asset exState .Collection "c1").1.assets .Instruction).find?
        (fun a => a.path == "i1")).map (fun v => v.effective) = some false := by
  refine ⟨by decide, by decide, by decide⟩

/-- C2: evaluation on the code.  A collection with no explicit override
(default-disabled baseline, effective false) is toggled for the first
time; the code removes the absent entry rather than writing one, leaving
the collections map empty and the collection still disabled, while the
claim requires an explicit override entry to be written. -/
theorem c2_first_collection_toggle_writes_nothing :
    ((exStateEmpty.assets .Collection).find? (fun a => a.path == "c1")).map
        (fun v => (v.explicit, v.effective)) = some (none, false)
    ∧ (toggle_asset exStateEmpty .Collection "c1").1.enablement.collections = []
    ∧ (((toggle_asset exStateEmpty .Collection "c1").1.assets .Collection).find?
        (fun a => a.path == "c1")).map (fun v => v.effective) = some false := by
  refine ⟨by decide, by decide, by decide⟩

/-- C3: evaluation on the code.  A prompt with explicit override true and
no inherited state starts effective true; the first toggle sets it to
false, and the second toggle removes nothing and changes nothing because
desired true equals the bugged baseline true, so the double toggle ends at
effective false instead of returning to true. -/
theorem c3_double_toggle_not_restored :
    ((exPromptState.assets .Prompt).find? (fun a => a.path == "p1")).map
        (fun v => v.effective) = some true
    ∧ ((((toggle_asset (toggle_asset exPromptState .Prompt "p1").1 .Prompt "p1").1).assets
        .Prompt).find? (fun a => a.path == "p1")).map (fun v => v.effective) = some false := by
  refine ⟨by decide, by decide⟩

theorem impact_items_members (s : DomainState) (w : Bool) :
    ∀ items : List CollectionItem, ∀ m ∈ (impact_items s w items).2.2.2,
      ∃ v, (s.assets m.kind).find? (fun a => a.path == m.path) = some v ∧
        m.current_effective = v.effective ∧
        (v.explicit.isSome = true →
          m.impact = .Unchanged ∧ m.new_effective = m.current_effective) ∧
        (v.explicit = none → m.new_effective = w) := by
  intro items
  induction items with
  | nil => intro m hm; simp [impact_items] at hm
  | cons item rest ih =>
    intro m hm
    cases hf : (s.assets item.kind).find? (fun a => a.path == item.path) with
    | none =>
      simp only [impact_items, hf] at hm
      exact ih m hm
    | some member =>
      simp only [impact_items, hf] at hm
      rcases List.mem_cons.mp hm with hm | hm
      · subst hm
        refine ⟨member, hf, rfl, ?_, ?_⟩
        · intro hex
          constructor
          · simp [hex]
          · simp [hex]
        · intro hnone
          simp [hnone]
      · exact ih m hm

theorem impact_items_counts (s : DomainState) (w : Bool) :
    ∀ items : List CollectionItem,
      (impact_items s w items).1 + (impact_items s w items).2.1 +
          (impact_items s w items).2.2.1 =
        (items.filter
          (fun it => ((s.assets it.kind).find? (fun a => a.path == it.path)).isSome)).length := by
  intro items
  induction items with
  | nil => simp [impact_items]
  | cons item rest ih =>
    cases hf : (s.assets item.kind).find? (fun a => a.path == item.path) with
    | none => simp [impact_items, hf, List.filter_cons, ih]
    | some member =>
      simp only [impact_items, hf, List.filter_cons, Option.isSome_some, if_pos]
      by_cases h1 :
          (member.effective == (if member.explicit.isSome then member.effective else w)) = true
      · simp only [h1, if_pos]
        simp only [List.length_cons]
        omega
      · simp only [Bool.not_eq_true] at h1
        simp only [h1, Bool.false_eq_true, if_false]
        by_cases h2 : (if member.explicit.isSome then member.effective else w) = true
        · simp only [h2, if_pos, List.length_cons]
          omega
        · simp only [Bool.not_eq_true] at h2
          simp only [h2, Bool.false_eq_true, if_false, List.length_cons]
          omega

/-- C6: in every successful collection impact analysis, the projected
collection state is the negation of its current effective state, every
member found in the views that has an explicit override is classified
Unchanged with its projected state equal to its current one, and every
member without an explicit override gets the projected collection state. -/
theorem c6_impact_classification (s : DomainState) (cpath : String)
    (impact : CollectionToggleImpact)
    (h : analyze_collection_toggle_impact s cpath = .ok impact) :
    (∃ cv, (s.assets .Collection).find? (fun a => a.path == cpath) = some cv ∧
      impact.collection_will_enable = !cv.effective)
    ∧ ∀ m ∈ impact.affected_members,
        ∃ v, (s.assets m.kind).find? (fun a => a.path == m.path) = some v ∧
          m.current_effective = v.effective ∧
          (v.explicit.isSome = true →
            m.impact = .Unchanged ∧ m.new_effective = m.current_effective) ∧
          (v.explicit = none → m.new_effective = impact.collection_will_enable) := by
  cases hc : s.catalog.collections.find? (fun c => c.path == cpath) with
  | none => simp [analyze_collection_toggle_impact, hc] at h
  | some collection =>
    cases hv : (s.assets .Collection).find? (fun a => a.path == cpath) with
    | none => simp [analyze_collection_toggle_impact, hc, hv] at h
    | some cv =>
      simp only [analyze_collection_toggle_impact, hc, hv, Except.ok.injEq] at h
      subst h
      refine ⟨⟨cv, rfl, rfl⟩, ?_⟩
      intro m hm
      exact impact_items_members s (!cv.effective) collection.items m hm

/-- Witness for C6 at the scenario state, its collection and its member. -/
theorem c6_impact_classification_witness :
    ∃ v, (exState.assets exMember.kind).find? (fun a => a.path == exMember.path) = some v ∧
      exMember.current_effective = v.effective ∧
      (v.explicit.isSome = true →
        exMember.impact = .Unchanged ∧ exMember.new_effective = exMember.current_effective) ∧
      (v.explicit = none → exMember.new_effective = exImpact.collection_will_enable) := by
  have h := c6_impact_classification exState "c1" exImpact (by decide)
  exact h.2 exMember (by decide)

/-- C10: in every successful collection impact analysis, the three counts
sum to the number of collection items found among the resolved views of
their kind, while total_members is the full item count; items referencing
absent paths are skipped. -/
theorem c10_impact_counts (s : DomainState) (cpath : String) (collection : Collection)
    (impact : CollectionToggleImpact)
    (hcol : s.catalog.collections.find? (fun c => c.path == cpath) = some collection)
    (h : analyze_collection_toggle_impact s cpath = .ok impact) :
    impact.total_members = collection.items.length
    ∧ impact.enable_count + impact.disable_count + impact.unchanged_count =
        (collection.items.filter
          (fun it => ((s.assets it.kind).find? (fun a => a.path == it.path)).isSome)).length := by
  cases hv : (s.assets .Collection).find? (fun a => a.path == cpath) with
  | none => simp [analyze_collection_toggle_impact, hcol, hv] at h
  | some cv =>
    simp only [analyze_collection_toggle_impact, hcol, hv, Except.ok.injEq] at h
    subst h
    exact ⟨rfl, impact_items_counts s (!cv.effective) collection.items⟩

/-- Witness for C10 at the ghost catalog: the sole item references an
absent path, so the counts sum to zero while total_members is one. -/
theorem c10_impact_counts_witness :
    ghostImpact.total_members = 1
    ∧ ghostImpact.enable_count + ghostImpact.disable_count + ghostImpact.unchanged_count = 0
    ∧ ghostImpact.enable_count + ghostImpact.disable_count + ghostImpact.unchanged_count <
        ghostImpact.total_members := by
  have h := c10_impact_counts ghostState "cg" ghostColl ghostImpact (by decide) (by decide)
  exact ⟨h.1.trans (by decide), h.2.trans (by decide), by decide⟩

theorem cleanup_snd (s : DomainState) :
    (cleanup_orphans s).2 = (collect_orphans s.catalog s.enablement).length := by
  by_cases h : (collect_orphans s.catalog s.enablement).length = 0
  · simp [cleanup_orphans, h]
  · simp [cleanup_orphans, beq_eq_false_iff_ne.mpr h]

theorem mem_orphansRaw_intro (cat : Catalog) (en : EnablementFile) (k : AssetKind)
    (pr : String × Bool) (hmem : pr ∈ en.map_for k) (hmiss : cat.contains k pr.1 = false) :
    ({ kind := k, path := pr.1, value := pr.2 } : OrphanEntry) ∈ orphansRaw cat en := by
  cases k with
  | Prompt =>
    apply List.mem_append.mpr
    left
    apply List.mem_append.mpr
    left
    apply List.mem_append.mpr
    left
    exact List.mem_map.mpr ⟨pr, List.mem_filter.mpr ⟨hmem, by simp [hmiss]⟩, rfl⟩
  | Instruction =>
    apply List.mem_append.mpr
    left
    apply List.mem_append.mpr
    left
    apply List.mem_append.mpr
    right
    exact List.mem_map.mpr ⟨pr, List.mem_filter.mpr ⟨hmem, by simp [hmiss]⟩, rfl⟩
  | ChatMode =>
    apply List.mem_append.mpr
    left
    apply List.mem_append.mpr
    right
    exact List.mem_map.mpr ⟨pr, List.mem_filter.mpr ⟨hmem, by simp [hmiss]⟩, rfl⟩
  | Collection =>
    apply List.mem_append.mpr
    right
    exact List.mem_map.mpr ⟨pr, List.mem_filter.mpr ⟨hmem, by simp [hmiss]⟩, rfl⟩

theorem mem_foldl_remove :
    ∀ (os : List OrphanEntry) (en : EnablementFile) (k : AssetKind) (pr : String × Bool),
      pr ∈ ((os.foldl (fun e o => e.remove o.kind o.path) en).map_for k) ↔
        pr ∈ en.map_for k ∧ ∀ o ∈ os, ¬(o.kind = k ∧ o.path = pr.1) := by
  intro os
  induction os with
  | nil => intro en k pr; simp
  | cons o rest ih =>
    intro en k pr
    rw [List.foldl_cons, ih]
    by_cases hk : o.kind = k
    · have hrem2 : (en.remove o.kind o.path).map_for k = mapRemove (en.map_for o.kind) o.path := by
        rw [EnablementFile.remove, map_for_with_map, if_pos hk]
      rw [hrem2]
      simp only [mapRemove, List.mem_filter, List.forall_mem_cons]
      constructor
      · rintro ⟨⟨hmem0, hne⟩, hrest⟩
        rw [hk] at hmem0
        rw [Bool.not_eq_true', beq_eq_false_iff_ne] at hne
        refine ⟨hmem0, ?_, hrest⟩
        rintro ⟨-, hpath⟩
        exact hne hpath.symm
      · rintro ⟨hmem0, hhead, hrest⟩
        rw [← hk] at hmem0
        refine ⟨⟨hmem0, ?_⟩, hrest⟩
        rw [Bool.not_eq_true', beq_eq_false_iff_ne]
        intro heq
        exact hhead ⟨hk, heq.symm⟩
    · have hrem2 : (en.remove o.kind o.path).map_for k = en.map_for k := by
        rw [EnablementFile.remove, map_for_with_map, if_neg hk]
      rw [hrem2]
      simp only [List.forall_mem_cons]
      constructor
      · rintro ⟨hmem0, hrest⟩
        exact ⟨hmem0, fun hc => hk hc.1, hrest⟩
      · rintro ⟨hmem0, -, hrest⟩
        exact ⟨hmem0, hrest⟩

theorem collect_orphans_after_remove (cat : Catalog) (en : EnablementFile) :
    collect_orphans cat
      ((collect_orphans cat en).foldl (fun e o => e.remove o.kind o.path) en) = [] := by
  have hfilter : ∀ k : AssetKind,
      (((collect_orphans cat en).foldl (fun e o => e.remove o.kind o.path) en).map_for k).filter
        (fun pr => !(cat.contains k pr.1)) = [] := by
    intro k
    apply List.filter_eq_nil_iff.mpr
    intro pr hpr
    simp only [Bool.not_eq_true, Bool.not_eq_true']
    by_contra hc
    have hmiss : cat.contains k pr.1 = false := by
      cases hval : cat.contains k pr.1
      · rfl
      · rw [hval] at hc
        simp at hc
    have hmem := (mem_foldl_remove _ _ _ _).mp hpr
    have horph := mem_orphansRaw_intro cat en k pr hmem.1 hmiss
    have hcol : ({ kind := k, path := pr.1, value := pr.2 } : OrphanEntry) ∈
        collect_orphans cat en :=
      ((List.perm_insertionSort orphanLeR _).mem_iff).mpr horph
    exact (hmem.2 _ hcol) ⟨rfl, rfl⟩
  have hp := hfilter .Prompt
  have hi := hfilter .Instruction
  have hcm := hfilter .ChatMode
  have hcl := hfilter .Collection
  simp only [EnablementFile.map_for] at hp hi hcm hcl
  obtain ⟨en2, hen2⟩ :
      ∃ en2, (collect_orphans cat en).foldl (fun e o => e.remove o.kind o.path) en = en2 :=
    ⟨_, rfl⟩
  rw [hen2] at hp hi hcm hcl ⊢
  simp [collect_orphans, orphansRaw, hp, hi, hcm, hcl]

theorem orphans_count_for (cat : Catalog) (en : EnablementFile) (kind : AssetKind)
    (path : String) (value : Bool) (hkeys : SortedKeys (en.map_for kind))
    (hmiss : cat.contains kind path = false) :
    ((collect_orphans cat (en.set kind path value)).filter
      (fun o => o.kind == kind && o.path == path)).length = 1 := by
  have hblock0 : ∀ (k2 : AssetKind) (l : List (String × Bool)), (k2 == kind) = false →
      (((l.filter (fun pr => !(cat.contains k2 pr.1))).map
        (fun pr => ({ kind := k2, path := pr.1, value := pr.2 } : OrphanEntry))).filter
        (fun o => o.kind == kind && o.path == path)).length = 0 := by
    intro k2 l hne
    apply length_filter_eq_zero
    intro o ho
    obtain ⟨pr, hpr, rfl⟩ := List.mem_map.mp ho
    simp [hne]
  have hblockm : ∀ l : List (String × Bool), SortedKeys l →
      ((((mapInsert l path value).filter (fun pr => !(cat.contains kind pr.1))).map
        (fun pr => ({ kind := kind, path := pr.1, value := pr.2 } : OrphanEntry))).filter
        (fun o => o.kind == kind && o.path == path)).length = 1 := by
    intro l hl
    rw [List.filter_map, List.length_map, List.filter_filter]
    have hcong :
        (mapInsert l path value).filter
          (fun a =>
            ((fun o : OrphanEntry => o.kind == kind && o.path == path) ∘
              (fun pr => ({ kind := kind, path := pr.1, value := pr.2 } : OrphanEntry))) a
            && !(cat.contains kind a.1))
        = (mapInsert l path value).filter (fun a => a.1 == path) := by
      apply List.filter_congr
      intro a ha
      by_cases hap : (a.1 == path) = true
      · have : a.1 = path := beq_iff_eq.mp hap
        simp [Function.comp, hap, this, hmiss]
      · simp only [Bool.not_eq_true] at hap
        simp [Function.comp, hap]
    rw [hcong]
    exact sortedKeys_insert_count l path value hl
  have hperm :=
    ((List.perm_insertionSort orphanLeR (orphansRaw cat (en.set kind path value))).filter
      (fun o => o.kind == kind && o.path == path)).length_eq
  rw [collect_orphans, hperm]
  cases kind with
  | Prompt =>
    simp only [orphansRaw, EnablementFile.set, EnablementFile.with_map, EnablementFile.map_for,
      List.filter_append, List.length_append]
    rw [hblockm en.prompts hkeys, hblock0 .Instruction en.instructions (by decide),
      hblock0 .ChatMode en.chat_modes (by decide), hblock0 .Collection en.collections (by decide)]
  | Instruction =>
    simp only [orphansRaw, EnablementFile.set, EnablementFile.with_map, EnablementFile.map_for,
      List.filter_append, List.length_append]
    rw [hblockm en.instructions hkeys, hblock0 .Prompt en.prompts (by decide),
      hblock0 .ChatMode en.chat_modes (by decide), hblock0 .Collection en.collections (by decide)]
  | ChatMode =>
    simp only [orphansRaw, EnablementFile.set, EnablementFile.with_map, EnablementFile.map_for,
      List.filter_append, List.length_append]
    rw [hblockm en.chat_modes hkeys, hblock0 .Prompt en.prompts (by decide),
      hblock0 .Instruction en.instructions (by decide),
      hblock0 .Collection en.collections (by decide)]
  | Collection =>
    simp only [orphansRaw, EnablementFile.set, EnablementFile.with_map, EnablementFile.map_for,
      List.filter_append, List.length_append]
    rw [hblockm en.collections hkeys, hblock0 .Prompt en.prompts (by decide),
      hblock0 .Instruction en.instructions (by decide),
      hblock0 .ChatMode en.chat_modes (by decide)]

theorem cleanup_eq_of_ne (s : DomainState)
    (hne : (collect_orphans s.catalog s.enablement).length ≠ 0) :
    cleanup_orphans s =
      (recompute
        { s with
          enablement :=
            (collect_orphans s.catalog s.enablement).foldl
              (fun e o => e.remove o.kind o.path) s.enablement },
        (collect_orphans s.catalog s.enablement).length) := by
  have hbeq : ((collect_orphans s.catalog s.enablement).length == 0) = false :=
    beq_eq_false_iff_ne.mpr hne
  simp only [cleanup_orphans, hbeq, Bool.false_eq_true, if_false]

/-- C7: inserting an override entry for a path the catalog does not contain
under that kind yields exactly one orphan for it; cleanup removes every
orphan entry from its map and returns the orphan count; a second cleanup
with no intervening change returns zero. -/
theorem c7_orphan_roundtrip (cat : Catalog) (en : EnablementFile) (kind : AssetKind)
    (path : String) (value : Bool) (s : DomainState)
    (hkeys : SortedKeys (en.map_for kind))
    (hmiss : cat.contains kind path = false)
    (hs : s = DomainState.new cat (en.set kind path value)) :
    ((s.orphans.filter (fun o => o.kind == kind && o.path == path)).length = 1)
    ∧ (cleanup_orphans s).2 = s.orphans.length
    ∧ (∀ o ∈ s.orphans, mapGet ((cleanup_orphans s).1.enablement.map_for o.kind) o.path = none)
    ∧ (cleanup_orphans (cleanup_orphans s).1).2 = 0 := by
  subst hs
  have hcount :
      (((DomainState.new cat (en.set kind path value)).orphans.filter
        (fun o => o.kind == kind && o.path == path)).length = 1) := by
    show ((collect_orphans cat (en.set kind path value)).filter
      (fun o => o.kind == kind && o.path == path)).length = 1
    exact orphans_count_for cat en kind path value hkeys hmiss
  have hne :
      (collect_orphans (DomainState.new cat (en.set kind path value)).catalog
        (DomainState.new cat (en.set kind path value)).enablement).length ≠ 0 := by
    intro h0
    have hnil := List.length_eq_zero.mp h0
    have : ((DomainState.new cat (en.set kind path value)).orphans.filter
        (fun o => o.kind == kind && o.path == path)).length = 0 := by
      show ((collect_orphans cat (en.set kind path value)).filter
        (fun o => o.kind == kind && o.path == path)).length = 0
      rw [show collect_orphans cat (en.set kind path value) = [] from hnil]
      rfl
    rw [hcount] at this
    cases this
  refine ⟨hcount, cleanup_snd _, ?_, ?_⟩
  · intro o ho
    rw [cleanup_eq_of_ne _ hne]
    show mapGet
      ((((collect_orphans (DomainState.new cat (en.set kind path value)).catalog
          (DomainState.new cat (en.set kind path value)).enablement).foldl
        (fun e o => e.remove o.kind o.path)
        (DomainState.new cat (en.set kind path value)).enablement)).map_for o.kind) o.path = none
    rw [mapGet, Option.map_eq_none']
    apply List.find?_eq_none.mpr
    intro pr hpr
    have hmem := (mem_foldl_remove _ _ _ _).mp hpr
    simp only [Bool.not_eq_true]
    apply beq_eq_false_iff_ne.mpr
    intro heq
    exact hmem.2 o ho ⟨rfl, heq.symm⟩
  · rw [cleanup_eq_of_ne _ hne, cleanup_snd]
    show (collect_orphans cat
      ((collect_orphans cat (en.set kind path value)).foldl
        (fun e o => e.remove o.kind o.path) (en.set kind path value))).length = 0
    rw [collect_orphans_after_remove]
    rfl

/-- Witness for C7: an orphan prompt entry over the ghost catalog. -/
theorem c7_orphan_roundtrip_witness :
    (SortedKeys (enEmpty.map_for .Prompt) ∧ ghostCatalog.contains .Prompt "orph" = false)
    ∧ ((((DomainState.new ghostCatalog (enEmpty.set .Prompt "orph" true)).orphans.filter
          (fun o => o.kind == .Prompt && o.path == "orph")).length = 1)
      ∧ (cleanup_orphans (DomainState.new ghostCatalog (enEmpty.set .Prompt "orph" true))).2 =
          (DomainState.new ghostCatalog (enEmpty.set .Prompt "orph" true)).orphans.length
      ∧ (∀ o ∈ (DomainState.new ghostCatalog (enEmpty.set .Prompt "orph" true)).orphans,
          mapGet (((cleanup_orphans
            (DomainState.new ghostCatalog (enEmpty.set .Prompt "orph" true))).1.enablement.map_for
              o.kind)) o.path = none)
      ∧ (cleanup_orphans (cleanup_orphans
          (DomainState.new ghostCatalog (enEmpty.set .Prompt "orph" true))).1).2 = 0) :=
  ⟨⟨by decide, by decide⟩,
    c7_orphan_roundtrip ghostCatalog enEmpty .Prompt "orph" true _ (by decide) (by decide) rfl⟩

theorem filter_path_length_le_one (p : String) :
    ∀ l : List CollectionItem, (l.map CollectionItem.path).Nodup →
      (l.filter (fun it => it.path == p)).length ≤ 1 := by
  intro l
  induction l with
  | nil => simp
  | cons a t ih =>
    intro hn
    rw [List.map_cons, List.nodup_cons] at hn
    by_cases hap : (a.path == p) = true
    · rw [List.filter_cons, if_pos hap]
      have hz : (t.filter (fun it => it.path == p)).length = 0 := by
        apply length_filter_eq_zero
        intro it hit
        apply beq_eq_false_iff_ne.mpr
        intro heq
        exact hn.1 (List.mem_map.mpr ⟨it, hit, heq.trans (beq_iff_eq.mp hap).symm⟩)
      simp [hz]
    · rw [List.filter_cons, if_neg (by simpa using hap)]
      exact ih hn.2

theorem nodup_of_length_le_one {α : Type} :
    ∀ xs : List α, xs.length ≤ 1 → xs.Nodup := by
  intro xs hxs
  cases xs with
  | nil => exact List.nodup_nil
  | cons x xs2 =>
    cases xs2 with
    | nil => simp
    | cons y ys => simp at hxs

theorem raw_membership_nodup (p : String) :
    ∀ l : List Collection, (l.map Collection.id).Nodup →
      (∀ c ∈ l, (c.items.map CollectionItem.path).Nodup) →
      (l.flatMap
        (fun col => (col.items.filter (fun it => it.path == p)).map (fun _ => col.id))).Nodup := by
  intro l
  induction l with
  | nil => simp
  | cons a t ih =>
    intro hids hitems
    rw [List.map_cons, List.nodup_cons] at hids
    rw [List.flatMap_cons, List.nodup_append]
    refine ⟨?_, ih hids.2 (fun c hc => hitems c (List.mem_cons_of_mem _ hc)), ?_⟩
    · apply nodup_of_length_le_one
      rw [List.length_map]
      exact filter_path_length_le_one p a.items (hitems a (List.mem_cons_self a t))
    · intro x hxa hxt
      obtain ⟨it, hit, hx⟩ := List.mem_map.mp hxa
      obtain ⟨c, hc, hxc⟩ := List.mem_flatMap.mp hxt
      obtain ⟨it2, hit2, hx2⟩ := List.mem_map.mp hxc
      exact hids.1 (List.mem_map.mpr ⟨c, hc, hx2.trans (hx.symm ▸ rfl)⟩)

/-- C9, amended: membership lists are always sorted ascending; provided the
collection ids are pairwise distinct and no collection lists two items
with the same path, they also contain no duplicates. -/
theorem c9_membership_sorted_nodup (cat : Catalog) (p : String) :
    List.Sorted strLeR (cat.memberships p)
    ∧ ((cat.collections.map Collection.id).Nodup →
        (∀ c ∈ cat.collections, (c.items.map CollectionItem.path).Nodup) →
        (cat.memberships p).Nodup) := by
  constructor
  · exact List.sorted_insertionSort strLeR _
  · intro h1 h2
    exact ((List.perm_insertionSort strLeR _).nodup_iff).mpr
      (raw_membership_nodup p cat.collections h1 h2)

/-- C9 counterexample: a collection listing the same member path under two
kinds yields a duplicated membership list, so the no-duplicates claim
fails on the code as stated. -/
theorem c9_counterexample :
    twiceCatalog.memberships "x" = ["c", "c"] ∧ ¬ (twiceCatalog.memberships "x").Nodup := by
  exact ⟨by decide, by decide⟩

/-- Witness for the amended C9 on the scenario catalog. -/
theorem c9_membership_sorted_nodup_witness :
    (exCatalog.collections.map Collection.id).Nodup
    ∧ (∀ c ∈ exCatalog.collections, (c.items.map CollectionItem.path).Nodup)
    ∧ List.Sorted strLeR (exCatalog.memberships "i1")
    ∧ (exCatalog.memberships "i1").Nodup :=
  ⟨by decide, by decide, (c9_membership_sorted_nodup exCatalog "i1").1,
    (c9_membership_sorted_nodup exCatalog "i1").2 (by decide) (by decide)⟩

theorem collections_find_unique :
    ∀ l : List Collection, (l.map Collection.id).Nodup → ∀ c ∈ l,
      l.find? (fun col => col.id == c.id) = some c := by
  intro l
  induction l with
  | nil => intro _ c hc; cases hc
  | cons a t ih =>
    intro hnodup c hc
    rw [List.map_cons, List.nodup_cons] at hnodup
    rcases List.mem_cons.mp hc with rfl | hct
    · simp [List.find?_cons]
    · have hne : (a.id == c.id) = false :=
        beq_eq_false_iff_ne.mpr (fun heq => hnodup.1 (List.mem_map.mpr ⟨c, hct, heq.symm⟩))
      rw [List.find?_cons, hne]
      exact ih hnodup.2 c hct

theorem mem_membershipRaw (cat : Catalog) (p a : String) :
    a ∈ cat.membershipRaw p ↔
      ∃ c ∈ cat.collections, c.id = a ∧ c.items.any (fun it => it.path == p) = true := by
  rw [Catalog.membershipRaw, List.mem_flatMap]
  constructor
  · rintro ⟨c, hc, hac⟩
    obtain ⟨it, hit, hx⟩ := List.mem_map.mp hac
    have hfit := List.mem_filter.mp hit
    exact ⟨c, hc, hx, List.any_eq_true.mpr ⟨it, hfit.1, hfit.2⟩⟩
  · rintro ⟨c, hc, rfl, hany⟩
    obtain ⟨it, hit, hp⟩ := List.any_eq_true.mp hany
    exact ⟨c, hc, List.mem_map.mpr ⟨it, List.mem_filter.mpr ⟨hit, hp⟩, rfl⟩⟩

theorem mem_memberships (cat : Catalog) (p a : String) :
    a ∈ cat.memberships p ↔ a ∈ cat.membershipRaw p :=
  (List.perm_insertionSort strLeR _).mem_iff

theorem mem_qualifying (cat : Catalog) (en : EnablementFile) (p : String) (c : Collection) :
    c ∈ qualifying cat en p ↔
      c ∈ cat.collections ∧ c.items.any (fun it => it.path == p) = true ∧
        (mapGet en.collections c.path).isSome = true := by
  rw [qualifying, List.mem_filter, Bool.and_eq_true]

theorem mem_inherited_candidates (cat : Catalog) (en : EnablementFile) (p : String)
    (hnodup : (cat.collections.map Collection.id).Nodup) (x : InheritedState) :
    x ∈ inherited_candidates cat en p ↔
      ∃ c ∈ qualifying cat en p, ∃ v, mapGet en.collections c.path = some v ∧
        x = { collection := { id := c.id, name := c.name, path := c.path }, value := v } := by
  rw [inherited_candidates, List.mem_filterMap]
  constructor
  · rintro ⟨a, ha, hstep⟩
    obtain ⟨c, hc, rfl, hany⟩ :=
      (mem_membershipRaw cat p a).mp ((mem_memberships cat p a).mp ha)
    have hbyid : cat.collection_by_id c.id = some c :=
      collections_find_unique cat.collections hnodup c hc
    rw [hbyid] at hstep
    cases hget : mapGet en.collections c.path with
    | none =>
      simp only [hget] at hstep
      cases hstep
    | some v =>
      simp only [hget] at hstep
      refine ⟨c, (mem_qualifying _ _ _ _).mpr ⟨hc, hany, by rw [hget]; rfl⟩, v, hget, ?_⟩
      exact (Option.some_inj.mp hstep).symm
  · rintro ⟨c, hcq, v, hget, rfl⟩
    have hq := (mem_qualifying _ _ _ _).mp hcq
    have hbyid : cat.collection_by_id c.id = some c :=
      collections_find_unique cat.collections hnodup c hq.1
    refine ⟨c.id, ?_, ?_⟩
    · exact (mem_memberships _ _ _).mpr ((mem_membershipRaw _ _ _).mpr ⟨c, hq.1, rfl, hq.2.1⟩)
    · simp only [hbyid, hget]

theorem inherited_state_congr_en (cat : Catalog) (en1 en2 : EnablementFile) (p : String)
    (hsame : ∀ q : String, mapGet en1.collections q = mapGet en2.collections q) :
    inherited_state cat en1 p = inherited_state cat en2 p := by
  have hcand : inherited_candidates cat en1 p = inherited_candidates cat en2 p := by
    rw [inherited_candidates, inherited_candidates]
    apply List.filterMap_congr
    intro a ha
    simp only [hsame]
  rw [inherited_state, inherited_state, hcand]

/-- C4 counterexample: two collections with the same id dup and distinct
paths both contain asset x and both carry explicit overrides, yet the
inherited value flips when the catalog collection order is reversed, so
the tie-break is not independent of catalog order as claimed. -/
theorem c4_counterexample :
    dupCatalog2.collections = dupCatalog1.collections.reverse
    ∧ 2 ≤ (qualifying dupCatalog1 dupStore "x").length
    ∧ (qualifying dupCatalog2 dupStore "x").Perm (qualifying dupCatalog1 dupStore "x")
    ∧ (inherited_state dupCatalog1 dupStore "x").map (fun i => i.value) = some false
    ∧ (inherited_state dupCatalog2 dupStore "x").map (fun i => i.value) = some true := by
  exact ⟨by decide, by decide, by decide, by decide, by decide⟩

/-- C4, amended: provided the collection ids are pairwise distinct, for an
asset with two or more qualifying collections the inherited state comes
from the qualifying collection with the lexicographically smallest id
together with its override value, and the result is invariant under
permutation of the catalog collections, under pointwise-equal override
stores, and under the order in which two distinct override entries were
inserted. -/
theorem c4_inherited_tiebreak (cat : Catalog) (en : EnablementFile) (p : String)
    (hnodup : (cat.collections.map Collection.id).Nodup)
    (hq : 2 ≤ (qualifying cat en p).length) :
    (∃ c ∈ qualifying cat en p, ∃ v,
      (∀ c2 ∈ qualifying cat en p, strLe c.id c2.id = true)
      ∧ mapGet en.collections c.path = some v
      ∧ inherited_state cat en p =
          some { collection := { id := c.id, name := c.name, path := c.path }, value := v })
    ∧ (∀ cat2 : Catalog, cat2.collections.Perm cat.collections →
        inherited_state cat2 en p = inherited_state cat en p)
    ∧ (∀ en2 : EnablementFile,
        (∀ q : String, mapGet en2.collections q = mapGet en.collections q) →
        inherited_state cat en2 p = inherited_state cat en p)
    ∧ (∀ (p1 : String) (v1 : Bool) (p2 : String) (v2 : Bool), p1 ≠ p2 →
        inherited_state cat ((en.set .Collection p1 v1).set .Collection p2 v2) p =
          inherited_state cat ((en.set .Collection p2 v2).set .Collection p1 v1) p) := by
  refine ⟨?_, ?_, ?_, ?_⟩
  · obtain ⟨c0, hc0⟩ :=
      List.exists_mem_of_length_pos (Nat.lt_of_lt_of_le (by omega) hq)
    have hq0 := (mem_qualifying _ _ _ _).mp hc0
    obtain ⟨v0, hv0⟩ := Option.isSome_iff_exists.mp hq0.2.2
    have hx0 : (⟨⟨c0.id, c0.name, c0.path⟩, v0⟩ : InheritedState) ∈
        inherited_candidates cat en p :=
      (mem_inherited_candidates cat en p hnodup _).mpr ⟨c0, hc0, v0, hv0, rfl⟩
    have hLmem : (⟨⟨c0.id, c0.name, c0.path⟩, v0⟩ : InheritedState) ∈
        List.insertionSort inhLeR (inherited_candidates cat en p) :=
      ((List.perm_insertionSort inhLeR _).mem_iff).mpr hx0
    obtain ⟨st, ts, hL⟩ : ∃ st ts,
        List.insertionSort inhLeR (inherited_candidates cat en p) = st :: ts := by
      cases hcase : List.insertionSort inhLeR (inherited_candidates cat en p) with
      | nil => rw [hcase] at hLmem; cases hLmem
      | cons a t => exact ⟨a, t, rfl⟩
    have hstmem : st ∈ inherited_candidates cat en p :=
      ((List.perm_insertionSort inhLeR _).mem_iff).mp (hL ▸ List.mem_cons_self st ts)
    obtain ⟨c, hcq, v, hget, hstx⟩ := (mem_inherited_candidates cat en p hnodup _).mp hstmem
    have hsort := List.sorted_insertionSort inhLeR (inherited_candidates cat en p)
    rw [hL] at hsort
    have hhead := (List.sorted_cons.mp hsort).1
    refine ⟨c, hcq, v, ?_, hget, ?_⟩
    · intro c2 hc2q
      have hq2 := (mem_qualifying _ _ _ _).mp hc2q
      obtain ⟨v2, hv2⟩ := Option.isSome_iff_exists.mp hq2.2.2
      have hx2 : (⟨⟨c2.id, c2.name, c2.path⟩, v2⟩ : InheritedState) ∈
          inherited_candidates cat en p :=
        (mem_inherited_candidates cat en p hnodup _).mpr ⟨c2, hc2q, v2, hv2, rfl⟩
      have hL2 : (⟨⟨c2.id, c2.name, c2.path⟩, v2⟩ : InheritedState) ∈ st :: ts :=
        hL ▸ ((List.perm_insertionSort inhLeR _).mem_iff).mpr hx2
      rcases List.mem_cons.mp hL2 with heq | hts
      · have hid : c2.id = st.collection.id := congrArg (fun i => i.collection.id) heq
        have hid2 : st.collection.id = c.id := congrArg (fun i => i.collection.id) hstx
        rw [hid, hid2]
        exact strLe_refl c.id
      · have hrel := hhead _ hts
        rw [hstx] at hrel
        exact hrel
    · rw [inherited_state, hL]
      rw [← hstx]
      rfl
  · intro cat2 hperm
    have hnodup2 : (cat2.collections.map Collection.id).Nodup :=
      ((hperm.map Collection.id).nodup_iff).mpr hnodup
    have hmemb : cat2.memberships p = cat.memberships p := by
      have hrawperm : (cat2.membershipRaw p).Perm (cat.membershipRaw p) :=
        List.Perm.flatMap_right _ hperm
      exact List.eq_of_perm_of_sorted
        ((List.perm_insertionSort strLeR _).trans
          (hrawperm.trans (List.perm_insertionSort strLeR _).symm))
        (List.sorted_insertionSort strLeR _) (List.sorted_insertionSort strLeR _)
    have hcand : inherited_candidates cat2 en p = inherited_candidates cat en p := by
      rw [inherited_candidates, inherited_candidates, hmemb]
      apply List.filterMap_congr
      intro a ha
      obtain ⟨c, hc, rfl, hany⟩ :=
        (mem_membershipRaw cat p a).mp ((mem_memberships cat p a).mp ha)
      have h1 : cat.collection_by_id c.id = some c :=
        collections_find_unique cat.collections hnodup c hc
      have h2 : cat2.collection_by_id c.id = some c :=
        collections_find_unique cat2.collections hnodup2 c (hperm.mem_iff.mpr hc)
      rw [h1, h2]
    rw [inherited_state, inherited_state, hcand]
  · intro en2 hsame
    exact inherited_state_congr_en cat en2 en p hsame
  · intro p1 v1 p2 v2 hne
    apply inherited_state_congr_en
    intro q
    show mapGet (mapInsert (mapInsert en.collections p1 v1) p2 v2) q =
      mapGet (mapInsert (mapInsert en.collections p2 v2) p1 v1) q
    rw [mapGet_mapInsert, mapGet_mapInsert, mapGet_mapInsert, mapGet_mapInsert]
    have hne2 : ¬p2 = p1 := fun h => hne h.symm
    by_cases h2 : q = p2
    · have h1 : ¬q = p1 := fun h => hne (h.symm.trans h2)
      simp [h1, h2, hne2]
    · by_cases h1 : q = p1
      · simp [h1, h2, hne]
      · simp [h1, h2]

/-- Witness for the amended C4 at two distinct-id qualifying collections. -/
theorem c4_inherited_tiebreak_witness :
    ∃ c ∈ qualifying tieCatalog tieStore "y", ∃ v,
      (∀ c2 ∈ qualifying tieCatalog tieStore "y", strLe c.id c2.id = true)
      ∧ mapGet tieStore.collections c.path = some v
      ∧ inherited_state tieCatalog tieStore "y" =
          some { collection := { id := c.id, name := c.name, path := c.path }, value := v } := by
  have h := c4_inherited_tiebreak tieCatalog tieStore "y" (by decide) (by decide)
  exact h.1

end CopilotTui
